import Mathlib

set_option maxRecDepth 8000
set_option synthInstance.maxSize 1000
set_option exponentiation.threshold 2048

/-!
# Verification of the meal-rotation recipe manager

Shallow embedding, over `List Char` and `ℚ`, of the quantity
parser/scaler/formatter from the web client (`App.tsx`), of the recipe
extractor (`scrape.ts`), and of the re-scrape route update logic
(`routes/recipes.ts`).  JavaScript strings are modelled as `String` /
`List Char`, JavaScript numbers as `ℚ` (wrapped in `JSNum` where the code
distinguishes non-finite values), and the anchored regular expressions of
the source as deterministic parsers (greedy quantifiers over disjoint
character classes, ordered alternation), which coincides with the
backtracking semantics for these patterns.
-/

namespace MealRotation

/-- JavaScript `\s` character class (the whitespace set used by `\s`,
`String.prototype.trim` and `replace(/\s+/g, ' ')` in the source). -/
def isSpaceJS (c : Char) : Bool :=
  c == ' ' || c == '\t' || c == '\n' || c == '\x0b' || c == '\x0c' || c == '\r' ||
  c == ' ' || c == ' ' || (' ' ≤ c && c ≤ ' ') ||
  c == ' ' || c == ' ' || c == ' ' || c == ' ' ||
  c == '　' || c == '﻿'

/-- JavaScript `\d` character class (ASCII digits). -/
def isDigitJS (c : Char) : Bool := '0' ≤ c && c ≤ '9'

/-- JavaScript `\w` character class, used for the `\b` word boundary. -/
def isWordJS (c : Char) : Bool :=
  ('a' ≤ c && c ≤ 'z') || ('A' ≤ c && c ≤ 'Z') || isDigitJS c || c == '_'

/-- JavaScript line terminators (not matched by `.` in a regex). -/
def isLineTermJS (c : Char) : Bool :=
  c == '\n' || c == '\r' || c == ' ' || c == ' '

/-- Embeds `replace(/\s+/g, ' ')`: each maximal run of whitespace becomes one
space.  The flag records whether we are inside a run whose space has
already been emitted. -/
def collapseWsAux : Bool → List Char → List Char
  | _, [] => []
  | afterWs, c :: rest =>
    if isSpaceJS c then
      if afterWs then collapseWsAux true rest
      else ' ' :: collapseWsAux true rest
    else c :: collapseWsAux false rest

/-- Embeds `replace(/\s+/g, ' ')` on a character list. -/
def collapseWs (cs : List Char) : List Char := collapseWsAux false cs

/-- Embeds `String.prototype.trim()`: strip leading and trailing JS whitespace. -/
def trimJS (cs : List Char) : List Char :=
  ((cs.dropWhile isSpaceJS).reverse.dropWhile isSpaceJS).reverse

/-- The `UNICODE_FRACTIONS` table keys (both `App.tsx` and `scrape.ts`). -/
def isGlyph (c : Char) : Bool :=
  c == '¼' || c == '½' || c == '¾' || c == '⅐' || c == '⅑' || c == '⅒' ||
  c == '⅓' || c == '⅔' || c == '⅕' || c == '⅖' || c == '⅗' || c == '⅘' ||
  c == '⅙' || c == '⅚' || c == '⅛' || c == '⅜' || c == '⅝' || c == '⅞'

/-- The `UNICODE_FRACTIONS` table values, as character lists. -/
def glyphAscii (c : Char) : List Char :=
  if c == '¼' then ['1', '/', '4'] else
  if c == '½' then ['1', '/', '2'] else
  if c == '¾' then ['3', '/', '4'] else
  if c == '⅐' then ['1', '/', '7'] else
  if c == '⅑' then ['1', '/', '9'] else
  if c == '⅒' then ['1', '/', '1', '0'] else
  if c == '⅓' then ['1', '/', '3'] else
  if c == '⅔' then ['2', '/', '3'] else
  if c == '⅕' then ['1', '/', '5'] else
  if c == '⅖' then ['2', '/', '5'] else
  if c == '⅗' then ['3', '/', '5'] else
  if c == '⅘' then ['4', '/', '5'] else
  if c == '⅙' then ['1', '/', '6'] else
  if c == '⅚' then ['5', '/', '6'] else
  if c == '⅛' then ['1', '/', '8'] else
  if c == '⅜' then ['3', '/', '8'] else
  if c == '⅝' then ['5', '/', '8'] else
  ['7', '/', '8']

/-- Embeds `text.replace(/[¼½¾…⅞]/g, (m) => ` + glyph + ` )`: every vulgar
fraction glyph is replaced by its ASCII form with surrounding spaces. -/
def expandGlyphs : List Char → List Char
  | [] => []
  | c :: rest =>
    (if isGlyph c then ' ' :: (glyphAscii c ++ [' ']) else [c]) ++ expandGlyphs rest

/-- Embeds `normalizeFractions` of `App.tsx`: glyph expansion followed by
whitespace collapsing (`.replace(/\s+/g, ' ')`). -/
def normalizeFractionsApp (cs : List Char) : List Char := collapseWs (expandGlyphs cs)

/-- Embeds `normalizeFractions` of `scrape.ts` / the extractor: glyph expansion
only (no whitespace collapsing). -/
def normalizeFractionsScrape (cs : List Char) : List Char := expandGlyphs cs

/-- Embeds `Math.abs` on a rational. -/
def jsAbs (q : ℚ) : ℚ := if q < 0 then -q else q

/-- Embeds `Math.floor` on a rational (computable floor). -/
def jsFloor (q : ℚ) : ℤ := Rat.floor q

/-- Embeds `Math.round`: round half toward positive infinity. -/
def jsRound (q : ℚ) : ℤ := jsFloor (q + 1 / 2)

/-- The `gcd` helper of `App.tsx`: a Euclid loop over absolute values,
with `return x || 1` turning a zero result into 1. -/
def jsGcd (a b : ℤ) : ℤ :=
  let g : ℤ := Int.gcd a b
  if g = 0 then 1 else g

/-- Embeds `String(Math.round(value*100)/100)` followed by the two trailing-zero
trims: renders `r / 100` as a decimal with at most two fraction digits
and no trailing zeros (JavaScript number printing already omits them). -/
def renderDec (r : ℤ) : String :=
  let a := r.natAbs
  let whole := a / 100
  let cents := a % 100
  let base :=
    if cents = 0 then toString whole
    else if cents % 10 = 0 then toString whole ++ "." ++ toString (cents / 10)
    else if cents < 10 then toString whole ++ ".0" ++ toString cents
    else toString whole ++ "." ++ toString cents
  if r < 0 then "-" ++ base else base

/-- Embeds `formatQuantity` of `App.tsx` on a finite value. -/
def formatQuantityQ (value : ℚ) : String :=
  let roundedInt := jsRound value
  if jsAbs (value - (roundedInt : ℚ)) < 1 / 1000000000 then toString roundedInt
  else
    let eighth : ℚ := (jsRound (value * 8) : ℚ) / 8
    if jsAbs (value - eighth) < 1 / 50 then
      let whole := jsFloor (eighth + 1 / 1000000000)
      let frac := eighth - (whole : ℚ)
      let num0 := jsRound (frac * 8)
      if num0 = 0 then toString whole
      else
        let g := jsGcd num0 8
        let num := num0 / g
        let den := (8 : ℤ) / g
        if whole > 0 then
          toString whole ++ " " ++ toString num ++ "/" ++ toString den
        else toString num ++ "/" ++ toString den
    else renderDec (jsRound (value * 100))

/-- A JavaScript number: a finite rational, `NaN`, or an infinity. -/
inductive JSNum where
  | finite (q : ℚ)
  | nan
  | posInf
  | negInf
deriving DecidableEq

/-- Embeds `Number.isFinite`. -/
def JSNum.isFinite : JSNum → Bool
  | .finite _ => true
  | _ => false

/-- Embeds `formatQuantity` of `App.tsx`: non-finite values render as `''`. -/
def formatQuantity : JSNum → String
  | .finite q => formatQuantityQ q
  | _ => ""

/-- Value of a digit string (`Number("123") = 123`). -/
def digitsToNat (ds : List Char) : ℕ :=
  ds.foldl (fun acc c => 10 * acc + (c.toNat - '0'.toNat)) 0

/-- Greedy `\d+`: maximal leading digit run (`none` when there is none). -/
def takeDigits (cs : List Char) : Option (List Char × List Char) :=
  if cs.takeWhile isDigitJS = [] then none
  else some (cs.takeWhile isDigitJS, cs.dropWhile isDigitJS)

/-- Greedy `\s+`: maximal leading whitespace run (`none` when empty). -/
def takeWs (cs : List Char) : Option (List Char × List Char) :=
  if cs.takeWhile isSpaceJS = [] then none
  else some (cs.takeWhile isSpaceJS, cs.dropWhile isSpaceJS)

/-- The `\b` word boundary after a digit: the next character, if any, is
not a word character. -/
def boundaryOk (cs : List Char) : Bool :=
  match cs with
  | [] => true
  | c :: _ => !isWordJS c

/-- Embeds `^(\d+)\s+(\d+)\s*\/\s*(\d+)\b` of `parseQuantityToken`:
whole, numerator, denominator (the `Number.isFinite`/`den !== 0` guards
on the converted values are applied by the caller). -/
def tryMixedTok (cs : List Char) : Option (ℕ × ℕ × ℕ) := do
  let (d1, r1) ← takeDigits cs
  let (_, r2) ← takeWs r1
  let (d2, r3) ← takeDigits r2
  let r3b := r3.dropWhile isSpaceJS
  match r3b with
  | '/' :: r4 =>
    let r4b := r4.dropWhile isSpaceJS
    let (d3, r5) ← takeDigits r4b
    if boundaryOk r5 then some (digitsToNat d1, digitsToNat d2, digitsToNat d3)
    else none
  | _ => none

/-- Embeds `^(\d+)\s*\/\s*(\d+)\b` of `parseQuantityToken` (guards on the
converted values are applied by the caller). -/
def tryFracTok (cs : List Char) : Option (ℕ × ℕ) := do
  let (d1, r1) ← takeDigits cs
  let r1b := r1.dropWhile isSpaceJS
  match r1b with
  | '/' :: r2 =>
    let r2b := r2.dropWhile isSpaceJS
    let (d2, r3) ← takeDigits r2b
    if boundaryOk r3 then some (digitsToNat d1, digitsToNat d2) else none
  | _ => none

/-- Embeds `^(\d+(?:\.\d+)?)` : leading decimal or integer, as the exact
value of the numeral (the `Number.isFinite` guard is applied by the
caller). -/
def tryDecTok (cs : List Char) : Option ℚ := do
  let (d1, r1) ← takeDigits cs
  match r1 with
  | '.' :: r2 =>
    match takeDigits r2 with
    | some (d2, _) =>
      some ((digitsToNat d1 : ℚ) + (digitsToNat d2 : ℚ) / (10 : ℚ) ^ d2.length)
    | none => some (digitsToNat d1 : ℚ)
  | _ => some (digitsToNat d1 : ℚ)

/-- Threshold of the source's `Number.isFinite` guards: string-to-double
conversion rounds ties to even, so a decimal numeral whose exact value
reaches `2^1024 - 2^970` (the midpoint above the largest finite double
`2^1024 - 2^971`) converts to `Infinity` and fails the guard, while any
smaller numeral converts to a finite double. -/
def jsOverflowBound : ℚ := ((2 ^ 1024 - 2 ^ 970 : ℕ) : ℚ)

/-- The decimal stage of `parseQuantityToken`: the anchored decimal
match, guarded by `Number.isFinite(n)`.  An overlong numeral converts
to `Infinity`, the guard fails, and the parse returns `null` (the match
is not retried further right). -/
def parseQuantityTokenDec (s : List Char) : Option ℚ :=
  match tryDecTok s with
  | some q => if q < jsOverflowBound then some q else none
  | none => none

/-- The simple-fraction and decimal fallthrough of `parseQuantityToken`
(reached when the mixed pattern fails to match or fails its guards),
with the source's `Number.isFinite(num) && Number.isFinite(den) &&
den !== 0` guard. -/
def parseQuantityTokenFrac (s : List Char) : Option ℚ :=
  match tryFracTok s with
  | some (n, d) =>
    if (n : ℚ) < jsOverflowBound ∧ (d : ℚ) < jsOverflowBound ∧ d ≠ 0 then
      some ((n : ℚ) / (d : ℚ))
    else parseQuantityTokenDec s
  | none => parseQuantityTokenDec s

/-- Embeds `parseQuantityToken` of `App.tsx`: normalize fraction glyphs, trim,
then try mixed fraction, simple fraction and decimal in order.  A
matched pattern whose `Number.isFinite(...)` or `den !== 0` guard fails
falls through to the next pattern. -/
def parseQuantityToken (cs : List Char) : Option ℚ :=
  let s := trimJS (normalizeFractionsApp cs)
  match tryMixedTok s with
  | some (w, n, d) =>
    if (w : ℚ) < jsOverflowBound ∧ (n : ℚ) < jsOverflowBound ∧
        (d : ℚ) < jsOverflowBound ∧ d ≠ 0 then
      some ((w : ℚ) + (n : ℚ) / (d : ℚ))
    else parseQuantityTokenFrac s
  | none => parseQuantityTokenFrac s

/-- Embeds `parseQuantityToken` on a `String`. -/
def parseQuantityTokenS (s : String) : Option ℚ := parseQuantityToken s.data

/-- Unanchored search for `(\d+)\s+(\d+)\s*\/\s*(\d+)` (no word
boundary): first match, scanning left to right (value guards are
applied by the caller to that first match only). -/
def findMixed : List Char → Option (ℕ × ℕ × ℕ)
  | [] => none
  | c :: rest =>
    match (do
      let (d1, r1) ← takeDigits (c :: rest)
      let (_, r2) ← takeWs r1
      let (d2, r3) ← takeDigits r2
      match r3.dropWhile isSpaceJS with
      | '/' :: r4 =>
        let (d3, _) ← takeDigits (r4.dropWhile isSpaceJS)
        some (digitsToNat d1, digitsToNat d2, digitsToNat d3)
      | _ => none : Option (ℕ × ℕ × ℕ)) with
    | some r => some r
    | none => findMixed rest

/-- Unanchored search for `(\d+)\s*\/\s*(\d+)` (no word boundary). -/
def findFrac : List Char → Option (ℕ × ℕ)
  | [] => none
  | c :: rest =>
    match (do
      let (d1, r1) ← takeDigits (c :: rest)
      match r1.dropWhile isSpaceJS with
      | '/' :: r2 =>
        let (d2, _) ← takeDigits (r2.dropWhile isSpaceJS)
        some (digitsToNat d1, digitsToNat d2)
      | _ => none : Option (ℕ × ℕ)) with
    | some r => some r
    | none => findFrac rest

/-- Unanchored search for `(\d+(?:\.\d+)?)`. -/
def findDec : List Char → Option ℚ
  | [] => none
  | c :: rest =>
    match tryDecTok (c :: rest) with
    | some q => some q
    | none => findDec rest

/-- The decimal stage of `parseFirstNumber`: the first decimal match,
guarded by `Number.isFinite(n)`; on an overlong numeral the guard fails
and the result is `undefined` (the search is not retried). -/
def parseFirstNumberDec (s : List Char) : Option ℚ :=
  match findDec s with
  | some q => if q < jsOverflowBound then some q else none
  | none => none

/-- The simple-fraction and decimal fallthrough of `parseFirstNumber`,
with its `Number.isFinite(num) && Number.isFinite(den) && den !== 0`
guard on the first fraction match. -/
def parseFirstNumberFrac (s : List Char) : Option ℚ :=
  match findFrac s with
  | some (n, d) =>
    if (n : ℚ) < jsOverflowBound ∧ (d : ℚ) < jsOverflowBound ∧ d ≠ 0 then
      some ((n : ℚ) / (d : ℚ))
    else parseFirstNumberDec s
  | none => parseFirstNumberDec s

/-- Embeds `parseFirstNumber` of `scrape.ts`: normalize fraction glyphs (without
whitespace collapsing), then search for a mixed fraction, a simple
fraction, and a decimal, in that order, anywhere in the string.  Each
stage uses only the first match of its pattern; a match whose
`Number.isFinite(...)` or `den !== 0` guard fails falls through to the
next stage. -/
def parseFirstNumber (cs : List Char) : Option ℚ :=
  let s := normalizeFractionsScrape cs
  match findMixed s with
  | some (w, n, d) =>
    if (w : ℚ) < jsOverflowBound ∧ (n : ℚ) < jsOverflowBound ∧
        (d : ℚ) < jsOverflowBound ∧ d ≠ 0 then
      some ((w : ℚ) + (n : ℚ) / (d : ℚ))
    else parseFirstNumberFrac s
  | none => parseFirstNumberFrac s

/-- Embeds `parseFirstNumber` on a `String`. -/
def parseFirstNumberS (s : String) : Option ℚ := parseFirstNumber s.data

/-- The decimal alternative `\d+(?:\.\d+)?` of the quantity group,
given the leading digit run `d1` and the remainder `r1`. -/
def matchQtyDec (d1 r1 : List Char) : Option (List Char × List Char) :=
  match r1 with
  | '.' :: r2 =>
    match takeDigits r2 with
    | some (d2, r3) => some (d1 ++ '.' :: d2, r3)
    | none => some (d1, r1)
  | _ => some (d1, r1)

/-- The simple-fraction alternative `\d+\/\d+` of the quantity group
(falling back to the decimal alternative), given the leading digit run. -/
def matchQtyFrac (d1 r1 : List Char) : Option (List Char × List Char) :=
  match r1 with
  | '/' :: r2 =>
    match takeDigits r2 with
    | some (d2, r3) => some (d1 ++ '/' :: d2, r3)
    | none => matchQtyDec d1 r1
  | _ => matchQtyDec d1 r1

/-- The quantity group of the `scaleLeadingQuantity` regex:
`(?:\d+\s+\d+\/\d+|\d+\/\d+|\d+(?:\.\d+)?)` (ordered alternation,
no whitespace around the slash, no word boundary).  All three
alternatives start with the same greedy digit run `d1`; the mixed
alternative is tried first, then the fraction, then the decimal.
Returns the matched token text and the remainder. -/
def matchQtyLine (cs : List Char) : Option (List Char × List Char) :=
  match takeDigits cs with
  | none => none
  | some (d1, r1) =>
    match takeWs r1 with
    | none => matchQtyFrac d1 r1
    | some (w, r2) =>
      match takeDigits r2 with
      | none => matchQtyFrac d1 r1
      | some (d2, r3) =>
        match r3 with
        | '/' :: r4 =>
          match takeDigits r4 with
          | none => matchQtyFrac d1 r1
          | some (d3, r5) => some (d1 ++ w ++ d2 ++ '/' :: d3, r5)
        | _ => matchQtyFrac d1 r1

/-- The separator alternation `(?:-|–|to)` (the `to` alternative is
case-insensitive): matched text and remainder. -/
def matchRangeSep (r1 : List Char) : Option (List Char × List Char) :=
  match r1 with
  | [] => none
  | c1 :: r2 =>
    if c1 == '-' then some (['-'], r2)
    else if c1 == '–' then some (['–'], r2)
    else
      match r2 with
      | c2 :: r3 =>
        if (c1 == 't' || c1 == 'T') && (c2 == 'o' || c2 == 'O') then
          some ([c1, c2], r3)
        else none
      | [] => none

/-- The optional range group `(\s*(?:-|–|to)\s*(qty))?`.  Returns the
full group text (`m[3]`), the second quantity token (`m[4]`) and the
remainder. -/
def matchRange (cs : List Char) : Option (List Char × List Char × List Char) :=
  let w1 := cs.takeWhile isSpaceJS
  let r1 := cs.dropWhile isSpaceJS
  match matchRangeSep r1 with
  | none => none
  | some (sep, r2) =>
    let w2 := r2.takeWhile isSpaceJS
    let r3 := r2.dropWhile isSpaceJS
    match matchQtyLine r3 with
    | none => none
    | some (b, r4) => some (w1 ++ sep ++ w2 ++ b, b, r4)

/-- The anchored match of
`^(\s*)(qty)(\s*(?:-|–|to)\s*(qty))?(.*)$` (flag `i`) used by
`scaleLeadingQuantity`: leading whitespace (`m[1]`), first quantity
(`m[2]`), optional range group (`m[3]`/`m[4]`) and suffix (`m[5]`).
`.` does not match line terminators and `$` is the end of the string, so
the regex fails when a line terminator remains in the suffix. -/
def leadingMatch (cs : List Char) :
    Option (List Char × List Char × Option (List Char × List Char) × List Char) :=
  let pre := cs.takeWhile isSpaceJS
  let r1 := cs.dropWhile isSpaceJS
  match matchQtyLine r1 with
  | none => none
  | some (a, r2) =>
    match matchRange r2 with
    | some (m3, b, r3) =>
      if r3.any isLineTermJS then none else some (pre, a, some (m3, b), r3)
    | none =>
      if r2.any isLineTermJS then none else some (pre, a, none, r2)

/-- Embeds `str.replace(sub, '')` for a plain-string pattern: remove the first
occurrence of `sub`. -/
def removeFirst : List Char → List Char → List Char
  | [], _ => []
  | hay@(h :: t), sub =>
    if sub.isPrefixOf hay then hay.drop sub.length else h :: removeFirst t sub

/-- Embeds `(m[3] ?? '').replace(b, '').trim() || '-'`: the separator kept for a
scaled range. -/
def rangeSep (m3 b : List Char) : List Char :=
  let s0 := trimJS (removeFirst m3 b)
  if s0 = [] then ['-'] else s0

/-- The body of `scaleLeadingQuantity` after the no-op guard (lines
158–183 of `App.tsx`). -/
def scaleCore (line : String) (m : ℚ) : String :=
  let normalized := normalizeFractionsApp line.data
  match leadingMatch normalized with
  | none => line
  | some (pre, a, rng, suffix0) =>
    let suffix := collapseWs suffix0
    match parseQuantityToken a with
    | none => line
    | some aNum =>
      let aScaled := (formatQuantityQ (aNum * m)).data
      match rng with
      | some (m3, b) =>
        match parseQuantityToken b with
        | none => String.mk (pre ++ aScaled ++ suffix)
        | some bNum =>
          let bScaled := (formatQuantityQ (bNum * m)).data
          String.mk (trimJS (collapseWs
            (pre ++ aScaled ++ ' ' :: rangeSep m3 b ++ ' ' :: bScaled ++ suffix)))
      | none => String.mk (trimJS (collapseWs (pre ++ aScaled ++ suffix)))

/-- Embeds `scaleLeadingQuantity` of `App.tsx`: identity when the line is empty,
the multiplier is not finite, or the multiplier is exactly 1. -/
def scaleLeadingQuantity (line : String) (multiplier : JSNum) : String :=
  match multiplier with
  | .finite m => if line = "" ∨ m = 1 then line else scaleCore line m
  | _ => line

/-- Case-insensitive comparison against a lowercase letter (regex `i`
flag). -/
def lowerEq (c d : Char) : Bool := c.toLower == d

/-- Embeds `/^\d/`. -/
def headIsDigit : List Char → Bool
  | c :: _ => isDigitJS c
  | [] => false

/-- Length of a match of `servings?\b` (case-insensitive) at the head of
the list: `serving`, a greedy optional `s`, then a word boundary. -/
def servCoreLen : List Char → Option ℕ
  | c1 :: c2 :: c3 :: c4 :: c5 :: c6 :: c7 :: rest =>
    if lowerEq c1 's' && lowerEq c2 'e' && lowerEq c3 'r' && lowerEq c4 'v' &&
       lowerEq c5 'i' && lowerEq c6 'n' && lowerEq c7 'g' then
      match rest with
      | [] => some 7
      | c8 :: rest2 =>
        if lowerEq c8 's' then if boundaryOk rest2 then some 8 else none
        else if isWordJS c8 then none
        else some 7
    else none
  | _ => none

/-- Embeds `label.replace(/\bservings?\b/i, '')`: remove the first occurrence.
The flag tracks whether the previous character is a word character (for
the leading `\b`). -/
def removeServAux : Bool → List Char → List Char
  | _, [] => []
  | prevWord, c :: rest =>
    match (if prevWord then none else servCoreLen (c :: rest)) with
    | some n => (c :: rest).drop n
    | none => c :: removeServAux (isWordJS c) rest

/-- Embeds `label.replace(/\bservings?\b/i, '')`. -/
def removeServWord (cs : List Char) : List Char := removeServAux false cs

/-- Embeds `/servings?\b/i.test(label)` (no leading word boundary). -/
def servTest : List Char → Bool
  | [] => false
  | c :: rest => (servCoreLen (c :: rest)).isSome || servTest rest

/-- Embeds `/^\s*serves\b/i.test(label)`. -/
def startsWithServes (cs : List Char) : Bool :=
  match cs.dropWhile isSpaceJS with
  | c1 :: c2 :: c3 :: c4 :: c5 :: c6 :: rest =>
    lowerEq c1 's' && lowerEq c2 'e' && lowerEq c3 'r' && lowerEq c4 'v' &&
    lowerEq c5 'e' && lowerEq c6 's' && boundaryOk rest
  | _ => false

/-- The global replace of `scaleServingsLabel`: scan left to right for
quantity matches; the first two that parse are rescaled and reformatted,
later matches are kept verbatim (the callback returns `raw` once
`count >= 2`).  The fuel starts at the length of the list and each step
consumes at least one character, so it never runs out. -/
def replaceQtysF (m : ℚ) : ℕ → ℕ → List Char → List Char
  | 0, _, cs => cs
  | _ + 1, _, [] => []
  | fuel + 1, count, c :: rest =>
    match matchQtyLine (c :: rest) with
    | some (tok, rest2) =>
      if 2 ≤ count then tok ++ replaceQtysF m fuel count rest2
      else
        match parseQuantityToken tok with
        | none => tok ++ replaceQtysF m fuel count rest2
        | some n => (formatQuantityQ (n * m)).data ++ replaceQtysF m fuel (count + 1) rest2
    | none => c :: replaceQtysF m fuel count rest

/-- Embeds `normalized.replace(qtyRe, …)` with the two-replacement counter. -/
def replaceQtys (m : ℚ) (cs : List Char) : List Char :=
  replaceQtysF m cs.length 0 cs

/-- The two fields of a recipe read by `scaleServingsLabel`. -/
structure ServingsInfo where
  servings : Option JSNum
  servingsText : Option String

/-- Embeds `typeof recipe.servings === 'number' && Number.isFinite(recipe.servings)
? recipe.servings : null`. -/
def finiteNum : Option JSNum → Option ℚ
  | some (.finite q) => some q
  | _ => none

/-- Embeds `scaleServingsLabel` of `App.tsx`. -/
def scaleServingsLabel (r : ServingsInfo) (m : ℚ) : Option String :=
  let baseText := trimJS (r.servingsText.getD "").data
  let baseNum := finiteNum r.servings
  if baseText = [] ∧ baseNum = none then none
  else if baseText = [] then some ("Serves " ++ formatQuantityQ (baseNum.getD 0 * m))
  else
    let normalized := normalizeFractionsApp baseText
    let label0 := trimJS (replaceQtys m normalized)
    if headIsDigit label0 then
      some (String.mk ("Serves ".data ++ trimJS (removeServWord label0)))
    else if servTest label0 && !startsWithServes label0 then
      let l1 := trimJS (removeServWord label0)
      some (if l1 = [] then "Serves" else String.mk ("Serves ".data ++ l1))
    else some (String.mk label0)

/-- Embeds `scrapeStatus` enum of the Prisma schema. -/
inductive ScrapeStatus where
  | pending
  | ok
  | error
deriving DecidableEq

/-- The persisted `Recipe` record (Prisma model), with the JSON columns
as string lists and timestamps abstracted to naturals. -/
structure RecipeRecord where
  id : ℕ
  title : String
  sourceUrl : String
  sourceHost : Option String
  imageUrl : Option String
  description : Option String
  ingredients : Option (List String)
  instructions : Option (List String)
  scrapeStatus : ScrapeStatus
  scrapeError : Option String
  lastScrapedAt : Option ℕ
  notes : Option String
  tags : Option (List String)

/-- A Prisma `update` data object: `none` means the field is absent from
the object (not updated); `some v` sets the column to `v`. -/
structure RecipePatch where
  title : Option String := none
  sourceHost : Option (Option String) := none
  imageUrl : Option (Option String) := none
  description : Option (Option String) := none
  ingredients : Option (Option (List String)) := none
  instructions : Option (Option (List String)) := none
  scrapeStatus : Option ScrapeStatus := none
  scrapeError : Option (Option String) := none
  lastScrapedAt : Option (Option ℕ) := none
  notes : Option (Option String) := none
  tags : Option (Option (List String)) := none

/-- Prisma `update` semantics: absent fields keep their value. -/
def applyPatch (r : RecipeRecord) (p : RecipePatch) : RecipeRecord :=
  { r with
    title := p.title.getD r.title
    sourceHost := p.sourceHost.getD r.sourceHost
    imageUrl := p.imageUrl.getD r.imageUrl
    description := p.description.getD r.description
    ingredients := p.ingredients.getD r.ingredients
    instructions := p.instructions.getD r.instructions
    scrapeStatus := p.scrapeStatus.getD r.scrapeStatus
    scrapeError := p.scrapeError.getD r.scrapeError
    lastScrapedAt := p.lastScrapedAt.getD r.lastScrapedAt
    notes := p.notes.getD r.notes
    tags := p.tags.getD r.tags }

/-- The first update of the re-scrape route:
`data: { scrapeStatus: 'pending', scrapeError: null }`. -/
def rescrapePendingPatch : RecipePatch :=
  { scrapeStatus := some .pending, scrapeError := some none }

/-- The `catch` update of the re-scrape route: `data: { scrapeStatus:
'error', scrapeError: message, lastScrapedAt: new Date() }`. -/
def rescrapeFailurePatch (message : String) (now : ℕ) : RecipePatch :=
  { scrapeStatus := some .error
    scrapeError := some (some message)
    lastScrapedAt := some (some now) }

/-- The record updates performed by `POST /:id/rescrape` when the
extraction attempt throws: first the pending reset, then the catch
update with the failure message. -/
def rescrapeOnFailure (r : RecipeRecord) (message : String) (now : ℕ) : RecipeRecord :=
  applyPatch (applyPatch r rescrapePendingPatch) (rescrapeFailurePatch message now)

/-- A parsed JSON value (the output of a successful `JSON.parse`).
Numbers are modelled as rationals; objects are association lists with
distinct keys, as produced by `JSON.parse`. -/
inductive Json where
  | null
  | bool (b : Bool)
  | num (q : ℚ)
  | str (s : String)
  | arr (elems : List Json)
  | obj (fields : List (String × Json))

/-- Property lookup `node[key]` (`none` models `undefined`). -/
def lookupJson : List (String × Json) → String → Option Json
  | [], _ => none
  | (k, v) :: rest, key => if k = key then some v else lookupJson rest key

theorem sizeOf_lookupJson {fs : List (String × Json)} {key : String} {v : Json}
    (h : lookupJson fs key = some v) : sizeOf v < sizeOf (Json.obj fs) := by
  induction fs with
  | nil => simp [lookupJson] at h
  | cons p rest ih =>
    rw [lookupJson] at h
    split at h
    · cases h
      cases p
      simp
      omega
    · have := ih h
      simp at this ⊢
      omega

/-- Embeds `flattenJsonLd` of `scrape.ts`: arrays are flattened recursively, an
object with an array-valued `@graph` is replaced by its flattened graph,
any other object is a single node, and primitives (including the falsy
values caught by `if (!json)`) contribute nothing. -/
def flattenJsonLd : Json → List Json
  | .arr [] => []
  | .arr (j :: rest) => flattenJsonLd j ++ flattenJsonLd (.arr rest)
  | .obj f =>
    match h : lookupJson f "@graph" with
    | some (.arr g) => flattenJsonLd (.arr g)
    | _ => [.obj f]
  | _ => []
termination_by j => sizeOf j
decreasing_by
  all_goals first
    | (simp <;> omega)
    | (have hlk := sizeOf_lookupJson h
       simp at hlk ⊢
       omega)

/-- Embeds `isRecipeType` of `scrape.ts`, applied to the (possibly absent)
`@type` property. -/
def isRecipeTypeO : Option Json → Bool
  | some (.str s) => s.toLower == "recipe"
  | some (.arr l) =>
    l.any fun t =>
      match t with
      | .str s => s.toLower == "recipe"
      | _ => false
  | _ => false

/-- Embeds `normalizeText` of `scrape.ts`: entity-decode, collapse whitespace,
replace non-breaking spaces, trim.  The external `he.decode` entity
decoder is not part of this repository and is passed in as `decode`. -/
def normalizeTextD (decode : String → String) (s : String) : String :=
  String.mk (trimJS ((collapseWs (decode s).data).map
    (fun c => if c == '\u00a0' then ' ' else c)))

/-- Multiplicity of the prime `p` in `n` (fuel-bounded). -/
def countFactor : ℕ → ℕ → ℕ → ℕ
  | 0, _, _ => 0
  | fuel + 1, p, n => if 2 ≤ p ∧ n ≠ 0 ∧ n % p = 0 then 1 + countFactor fuel p (n / p) else 0

/-- JavaScript `String(n)` for a JSON number.  Doubles always have a
terminating decimal expansion; a rational whose reduced denominator has a
prime factor other than 2 and 5 is outside the double range and is
rendered as a fraction (unreachable for data produced by `JSON.parse`). -/
def jsNumToString (q : ℚ) : String :=
  if q.den = 1 then toString q.num
  else
    let e2 := countFactor q.den 2 q.den
    let e5 := countFactor q.den 5 q.den
    if q.den = 2 ^ e2 * 5 ^ e5 then
      let e := max e2 e5
      let scaled := (q.num * 10 ^ e / (q.den : ℤ)).natAbs
      let intPart := scaled / 10 ^ e
      let fracPart := scaled % 10 ^ e
      let fs := toString fracPart
      (if q.num < 0 then "-" else "") ++ toString intPart ++ "." ++
        String.mk (List.replicate (e - fs.length) '0') ++ fs
    else toString q.num ++ "/" ++ toString q.den

/-- Embeds `toFirstString` of `scrape.ts`: a non-empty string, a finite number
rendered as a string, or the first such value found in a (nested) array;
everything else is `undefined`. -/
def toFirstString : Json → Option String
  | .str s => if s = "" then none else some s
  | .num q => if q = 0 then none else some (jsNumToString q)
  | .arr [] => none
  | .arr (j :: rest) => toFirstString j <|> toFirstString (.arr rest)
  | _ => none
termination_by j => sizeOf j
decreasing_by
  all_goals simp <;> omega

/-- Embeds `toStringArray` of `scrape.ts` applied to a (possibly absent) field:
string elements are normalized and empty results dropped; a plain string
becomes a one-element list; an empty result is `undefined`, not `[]`. -/
def toStringArrayD (decode : String → String) : Option Json → Option (List String)
  | some (.arr l) =>
    let out := l.filterMap fun v =>
      match v with
      | .str sv =>
        let t := normalizeTextD decode sv
        if t = "" then none else some t
      | _ => none
    if out = [] then none else some out
  | some (.str sv) =>
    let t := normalizeTextD decode sv
    if t = "" then none else some [t]
  | _ => none

/-- Length of a match of `\r?\n|\d+\.|•|\u2022` at the head. -/
def coreLen (cs : List Char) : Option ℕ :=
  match cs with
  | [] => none
  | c :: rest =>
    if c == '\r' then
      match rest with
      | c2 :: _ => if c2 == '\n' then some 2 else none
      | [] => none
    else if c == '\n' then some 1
    else if c == '•' then some 1
    else if isDigitJS c then
      let ds := (c :: rest).takeWhile isDigitJS
      match (c :: rest).dropWhile isDigitJS with
      | d :: _ => if d == '.' then some (ds.length + 1) else none
      | [] => none
    else none

/-- Greedy-with-backtracking match of `\s*(?:\r?\n|\d+\.|•|\u2022)\s*`
at the head: try the longest whitespace prefix first (`k` spaces), then
shorter ones, and add the greedy trailing whitespace. -/
def delimTryK (cs : List Char) : ℕ → Option ℕ
  | 0 => (coreLen cs).map fun c => c + ((cs.drop c).takeWhile isSpaceJS).length
  | k + 1 =>
    match coreLen (cs.drop (k + 1)) with
    | some c => some (k + 1 + c + ((cs.drop (k + 1 + c)).takeWhile isSpaceJS).length)
    | none => delimTryK cs k

/-- Length of a delimiter match of the instruction-splitting regex at the
head of the list, if any. -/
def delimMatchLen (cs : List Char) : Option ℕ :=
  delimTryK cs (cs.takeWhile isSpaceJS).length

theorem coreLen_pos {cs : List Char} {n : ℕ} (h : coreLen cs = some n) : 0 < n := by
  unfold coreLen at h
  repeat' split at h
  all_goals simp_all
  all_goals omega

theorem delimTryK_pos {cs : List Char} {k n : ℕ} (h : delimTryK cs k = some n) : 0 < n := by
  induction k with
  | zero =>
    unfold delimTryK at h
    match hc : coreLen cs with
    | none => simp [hc] at h
    | some c =>
      simp [hc] at h
      have := coreLen_pos hc
      omega
  | succ k ih =>
    unfold delimTryK at h
    split at h
    · rename_i c hc
      cases h
      omega
    · exact ih h

theorem delimMatchLen_pos {cs : List Char} {n : ℕ} (h : delimMatchLen cs = some n) :
    0 < n := delimTryK_pos h

theorem delimMatchLen_nil : delimMatchLen ([] : List Char) = none := rfl

/-- Embeds `text.split(/\s*(?:\r?\n|\d+\.|•|\u2022)\s*/)`: scan for
delimiter matches, splitting the text at each one.  `acc` is the current
piece, reversed. -/
def splitInstrAux (acc : List Char) (cs : List Char) : List (List Char) :=
  match h : delimMatchLen cs with
  | some n => acc.reverse :: splitInstrAux [] (cs.drop n)
  | none =>
    match cs with
    | [] => [acc.reverse]
    | c :: rest => splitInstrAux (c :: acc) rest
termination_by cs.length
decreasing_by
  · have hn := delimMatchLen_pos h
    have hne : cs ≠ [] := by
      intro he
      rw [he, delimMatchLen_nil] at h
      cases h
    cases cs with
    | nil => exact absurd rfl hne
    | cons c rest => simp [List.length_drop]; omega
  · simp

/-- The instruction-splitting of a single text blob. -/
def splitInstr (cs : List Char) : List (List Char) := splitInstrAux [] cs

mutual

/-- Embeds `parseInstructions` of `scrape.ts`: a falsy value is `undefined`; a
string blob is split on newline/numbered/bullet boundaries (falling back
to the whole text when the split leaves nothing); an array collects
strings, objects with a string `text` field, and recursively the
`itemListElement` of section objects; anything else (including a plain
object) is `undefined`. -/
def parseInstructions (decode : String → String) : Json → Option (List String)
  | .null => none
  | .bool _ => none
  | .num _ => none
  | .str s =>
    if s = "" then none
    else
      let text := normalizeTextD decode s
      let pieces := ((splitInstr text.data).map
        fun p => normalizeTextD decode (String.mk p)).filter (· ≠ "")
      some (if pieces = [] then [text] else pieces)
  | .arr l =>
    let out := parseInstrList decode l
    if out = [] then none else some out
  | .obj _ => none
termination_by j => sizeOf j
decreasing_by
  all_goals simp <;> omega

/-- The element loop of `parseInstructions` over an array. -/
def parseInstrList (decode : String → String) : List Json → List String
  | [] => []
  | j :: rest =>
    (match j with
     | .str s =>
       let t := normalizeTextD decode s
       if t = "" then [] else [t]
     | .obj f =>
       match lookupJson f "text" with
       | some (.str s) =>
         let t := normalizeTextD decode s
         if t = "" then [] else [t]
       | _ =>
         match h : lookupJson f "itemListElement" with
         | some ile => (parseInstructions decode ile).getD []
         | none => []
     | _ => []) ++ parseInstrList decode rest
termination_by l => sizeOf l
decreasing_by
  all_goals first
    | (simp <;> omega)
    | (have hlk := sizeOf_lookupJson h
       simp at hlk ⊢
       omega)

end

/-- Embeds `normalizeUrl` of `scrape.ts` on a string: trim, upgrade
protocol-relative URLs to `https:`, otherwise resolve against the page
URL.  `resolve` models `new URL(raw, base).toString()` for the page the
extractor is working on (`none` models the constructor throwing); it is
assumed to produce a non-empty string on success. -/
def normalizeUrlStr (resolve : String → Option String) (s : String) : Option String :=
  let t := trimJS s.data
  match t with
  | [] => none
  | c1 :: c2 :: _ => if c1 == '/' && c2 == '/' then some ("https:" ++ String.mk t)
      else resolve (String.mk t)
  | _ => resolve (String.mk t)

/-- Embeds `normalizeUrl` applied to a (possibly absent) JSON value: only
strings are accepted. -/
def normalizeUrlJ (resolve : String → Option String) : Option Json → Option String
  | some (.str s) => normalizeUrlStr resolve s
  | _ => none

/-- Embeds `pickImageUrl` of `scrape.ts`: a string is normalized, an array
yields its first successful element, an object is tried at `url`,
`contentUrl`, then `thumbnailUrl`. -/
def pickImageUrl (resolve : String → Option String) : Json → Option String
  | .str s => normalizeUrlStr resolve s
  | .arr [] => none
  | .arr (j :: rest) => pickImageUrl resolve j <|> pickImageUrl resolve (.arr rest)
  | .obj f =>
    normalizeUrlJ resolve (lookupJson f "url") <|>
    normalizeUrlJ resolve (lookupJson f "contentUrl") <|>
    normalizeUrlJ resolve (lookupJson f "thumbnailUrl")
  | _ => none
termination_by j => sizeOf j
decreasing_by
  all_goals simp <;> omega

/-- Embeds `pickMetaImageUrl` of `scrape.ts`: the meta-tag candidates in their
fixed preference order, first normalizable one wins. -/
def pickMetaImageUrl (resolve : String → Option String) :
    List (Option String) → Option String
  | [] => none
  | c :: rest =>
    (match c with
     | some s => normalizeUrlStr resolve s
     | none => none) <|> pickMetaImageUrl resolve rest

/-- The data of a fetched page, as read by the extractor through cheerio:
hostname of the page URL, the `og:title` meta content, the `<title>`
text, the six image meta-tag candidates in preference order, and the
parse outcome of each non-empty `application/ld+json` script block
(`none` models a `JSON.parse` failure). -/
structure Page where
  hostname : String
  ogTitle : Option String
  titleText : String
  metaImages : List (Option String)
  blocks : List (Option Json)

/-- The outcome of the HTTP fetch: a non-2xx status, or a page. -/
inductive FetchResult where
  | failed (status : ℕ)
  | fetched (page : Page)

/-- Embeds `ScrapedRecipe` of `scrape.ts` (the variant with servings fields). -/
structure ScrapedRecipe where
  title : String
  description : Option String := none
  imageUrl : Option String := none
  servings : Option ℚ := none
  servingsText : Option String := none
  ingredients : Option (List String) := none
  instructions : Option (List String) := none
  sourceHost : Option String := none
deriving DecidableEq

/-- The JSON-LD node list: successfully parsed blocks, flattened in
order (a malformed block is skipped by the `catch`). -/
def collectJsonNodes (blocks : List (Option Json)) : List Json :=
  (blocks.filterMap id).flatMap flattenJsonLd

/-- Embeds `jsonNodes.find(node => typeof node === 'object' && node &&
isRecipeType(node['@type']))`, returning the fields of the first
recipe-typed object node. -/
def findRecipeFields : List Json → Option (List (String × Json))
  | [] => none
  | .obj f :: rest =>
    if isRecipeTypeO (lookupJson f "@type") then some f else findRecipeFields rest
  | _ :: rest => findRecipeFields rest

/-- JavaScript `a || b` on strings: first non-empty. -/
def orTruthy (a b : String) : String := if a = "" then b else a

/-- Embeds `normalizeText($('meta[property="og:title"]').attr('content') ||
$('title').text() || 'Untitled recipe')`. -/
def titleFromHtml (decode : String → String) (p : Page) : String :=
  normalizeTextD decode (orTruthy (p.ogTitle.getD "")
    (orTruthy p.titleText "Untitled recipe"))

/-- Embeds `scrapeRecipe` of `scrape.ts` (servings variant), as a function of
the fetch outcome: a non-2xx status throws `Fetch failed (status)`;
otherwise a `ScrapedRecipe` is always produced — falling back to page
metadata when no recipe-typed JSON-LD node exists. -/
def scrapeRecipeM (decode : String → String) (resolve : String → Option String) :
    FetchResult → Except String ScrapedRecipe
  | .failed status => .error ("Fetch failed (" ++ toString status ++ ")")
  | .fetched p =>
    let jsonNodes := collectJsonNodes p.blocks
    let titleHtml := titleFromHtml decode p
    match findRecipeFields jsonNodes with
    | none =>
      .ok { title := titleHtml
            imageUrl := pickMetaImageUrl resolve p.metaImages
            sourceHost := some p.hostname }
    | some f =>
      let title :=
        match lookupJson f "name" with
        | some (.str s) => normalizeTextD decode s
        | _ => titleHtml
      let description :=
        match lookupJson f "description" with
        | some (.str s) => some (normalizeTextD decode s)
        | _ => none
      let servingsRaw :=
        (lookupJson f "recipeYield").bind toFirstString <|>
        (lookupJson f "yield").bind toFirstString <|>
        (lookupJson f "recipeServings").bind toFirstString <|>
        (lookupJson f "servings").bind toFirstString
      let servingsText := servingsRaw.map (normalizeTextD decode)
      let servings :=
        match servingsText with
        | some st => if st = "" then none else parseFirstNumberS st
        | none => none
      .ok { title := title
            description := description
            imageUrl := pickImageUrl resolve ((lookupJson f "image").getD .null) <|>
              pickMetaImageUrl resolve p.metaImages
            servings := servings
            servingsText := servingsText
            ingredients := toStringArrayD decode (lookupJson f "recipeIngredient")
            instructions :=
              (lookupJson f "recipeInstructions").bind (parseInstructions decode)
            sourceHost := some p.hostname }

/-- Embeds `true` when the extraction returned a `ScrapedRecipe` rather than
throwing. -/
def isOkE : Except String ScrapedRecipe → Bool
  | .ok _ => true
  | .error _ => false

/-- All whitespace characters are plain spaces. -/
def spacedOk (l : List Char) : Bool := l.all fun c => !isSpaceJS c || c == ' '

/-- No two adjacent whitespace characters. -/
def noAdjWs : List Char → Bool
  | [] => true
  | [_] => true
  | a :: b :: t => !(isSpaceJS a && isSpaceJS b) && noAdjWs (b :: t)

/-- The head, if any, is not whitespace. -/
def headNotWs : List Char → Bool
  | [] => true
  | c :: _ => !isSpaceJS c

/-- Fully normalized spacing: no leading or trailing whitespace, every
whitespace character is a single plain space. -/
def wsNormalized (l : List Char) : Bool :=
  spacedOk l && noAdjWs l && headNotWs l && headNotWs l.reverse

/-- Rendering of the snapped eighth `k/8` following the claim text:
integer when the fractional part vanishes, otherwise
`whole num/den` with the whole part floored and the fraction reduced by
gcd (`num/den` alone when the whole part is zero). -/
def eighthRender (k : ℤ) : String :=
  let w := Int.fdiv k 8
  let r := Int.fmod k 8
  if r = 0 then toString w
  else
    let g : ℤ := Int.gcd r 8
    if w = 0 then toString (Int.fdiv r g) ++ "/" ++ toString (Int.fdiv 8 g)
    else toString w ++ " " ++ toString (Int.fdiv r g) ++ "/" ++ toString (Int.fdiv 8 g)

/-- Witness page for C3: an `og:title`, no meta images, and a single
script block whose JSON fails to parse. -/
def pageW : Page :=
  { hostname := "example.com"
    ogTitle := some "My Page"
    titleText := ""
    metaImages := []
    blocks := [none] }

/-- A range line whose second quantity is a 309-digit numeral: its value
`10 ^ 309 - 1` exceeds `jsOverflowBound`, so `Number(...)` converts it
to `Infinity` and `parseQuantityToken` rejects it. -/
def hugeNineLine : String :=
  String.mk (" 1 - ".data ++ List.replicate 309 '9' ++ " eggs".data)

/-! ## Claim theorems -/

/-- C6: `scaleLeadingQuantity(line, 1) = line` for every line, and
`scaleLeadingQuantity(line, m) = line` for every non-finite `m` (NaN or
±Infinity): the function is the identity whenever the multiplier is
exactly 1 or not finite. -/
theorem scaleLeadingQuantity_identity :
    (∀ line : String, scaleLeadingQuantity line (.finite 1) = line) ∧
    (∀ line : String, scaleLeadingQuantity line .nan = line) ∧
    (∀ line : String, scaleLeadingQuantity line .posInf = line) ∧
    (∀ line : String, scaleLeadingQuantity line .negInf = line) := by
  refine ⟨fun line => ?_, fun _ => rfl, fun _ => rfl, fun _ => rfl⟩
  simp [scaleLeadingQuantity]

/-- C7: when a re-scrape extraction attempt fails, the route updates only
`scrapeStatus` (to `error`), `scrapeError` (to the failure message) and
`lastScrapedAt`; title, description, imageUrl, ingredients,
instructions, sourceHost, notes and tags keep the values from the last
successful scrape. -/
theorem rescrape_failure_frame (r : RecipeRecord) (message : String) (now : ℕ) :
    (rescrapeOnFailure r message now).title = r.title ∧
    (rescrapeOnFailure r message now).description = r.description ∧
    (rescrapeOnFailure r message now).imageUrl = r.imageUrl ∧
    (rescrapeOnFailure r message now).ingredients = r.ingredients ∧
    (rescrapeOnFailure r message now).instructions = r.instructions ∧
    (rescrapeOnFailure r message now).sourceHost = r.sourceHost ∧
    (rescrapeOnFailure r message now).notes = r.notes ∧
    (rescrapeOnFailure r message now).tags = r.tags ∧
    (rescrapeOnFailure r message now).scrapeStatus = .error ∧
    (rescrapeOnFailure r message now).scrapeError = some message ∧
    (rescrapeOnFailure r message now).lastScrapedAt = some now :=
  ⟨rfl, rfl, rfl, rfl, rfl, rfl, rfl, rfl, rfl, rfl, rfl⟩

/-- C2: the extractor throws exactly on fetch failure: a non-2xx status
yields the `Fetch failed (status)` error and nothing else (no recipe
payload), every fetched page yields a `ScrapedRecipe` (missing or
malformed structured data never raises), and a JSON-LD block whose
`JSON.parse` fails is skipped while extraction continues with the
remaining blocks. -/
theorem scrapeRecipe_error_exactly_on_fetch_failure :
    (∀ (decode : String → String) (resolve : String → Option String) (status : ℕ),
      scrapeRecipeM decode resolve (.failed status) =
        .error ("Fetch failed (" ++ toString status ++ ")")) ∧
    (∀ (decode : String → String) (resolve : String → Option String) (p : Page),
      isOkE (scrapeRecipeM decode resolve (.fetched p)) = true) ∧
    (∀ front back : List (Option Json),
      collectJsonNodes (front ++ none :: back) = collectJsonNodes (front ++ back)) := by
  refine ⟨fun _ _ _ => rfl, fun decode resolve p => ?_, fun front back => ?_⟩
  · cases h : findRecipeFields (collectJsonNodes p.blocks) <;>
      simp [scrapeRecipeM, isOkE, h]
  · simp [collectJsonNodes, List.filterMap_append]

/-- C3: when the fetched page has no JSON-LD node whose `@type` equals or
includes `recipe` (case-insensitively), the extractor returns a
`ScrapedRecipe` with only the title (from the `og:title` meta tag or the
page `<title>`), the hostname, and possibly a meta-tag image populated;
description, servings, servingsText, ingredients and instructions are
all absent, and no error is raised for that reason. -/
theorem scrapeRecipe_no_recipe_node (decode : String → String)
    (resolve : String → Option String) (p : Page)
    (h : findRecipeFields (collectJsonNodes p.blocks) = none) :
    scrapeRecipeM decode resolve (.fetched p) =
      .ok { title := titleFromHtml decode p
            description := none
            imageUrl := pickMetaImageUrl resolve p.metaImages
            servings := none
            servingsText := none
            ingredients := none
            instructions := none
            sourceHost := some p.hostname } := by
  simp [scrapeRecipeM, h]

/-- C3 witness: on `pageW` the recipe-node search is empty and the
extractor returns the minimal metadata-only `ScrapedRecipe`. -/
theorem scrapeRecipe_no_recipe_node_witness :
    findRecipeFields (collectJsonNodes pageW.blocks) = none ∧
    scrapeRecipeM id (fun _ => none) (.fetched pageW) =
      .ok { title := titleFromHtml id pageW
            description := none
            imageUrl := pickMetaImageUrl (fun _ => none) pageW.metaImages
            servings := none
            servingsText := none
            ingredients := none
            instructions := none
            sourceHost := some pageW.hostname } :=
  ⟨rfl, scrapeRecipe_no_recipe_node id (fun _ => none) pageW rfl⟩

/-- C1 counterexample: a range written with the word `to` is reassembled
with `to`, not with a normalized `-` separator. -/
theorem scaleLeadingQuantity_separator_counterexample :
    scaleLeadingQuantity "1 to 2 eggs" (.finite 2) = "2 to 4 eggs" ∧
    scaleLeadingQuantity "1 to 2 eggs" (.finite 2) ≠ "2 - 4 eggs" := by
  constructor <;> with_unfolding_all decide

/-- C5 counterexample: at `-0.26` the value is not within `1e-9` of an
integer, the nearest eighth is `-1/4` (within `0.02`), and the claimed
rendering is `-1 3/4` — but `formatQuantity` drops the negative whole
part and renders `3/4`. -/
theorem formatQuantity_counterexample :
    formatQuantityQ (-13 / 50) = "3/4" ∧
    eighthRender (jsRound ((-13 / 50 : ℚ) * 8)) = "-1 3/4" ∧
    jsAbs ((-13 / 50 : ℚ) - (jsRound ((-13 / 50 : ℚ) * 8) : ℚ) / 8) < 1 / 50 ∧
    ¬ jsAbs ((-13 / 50 : ℚ) - (jsRound (-13 / 50 : ℚ) : ℚ)) < 1 / 1000000000 ∧
    formatQuantityQ (-13 / 50) ≠ eighthRender (jsRound ((-13 / 50 : ℚ) * 8)) := by
  refine ⟨?_, ?_, ?_, ?_, ?_⟩ <;> with_unfolding_all decide

theorem takeDigits_eq_none {cs : List Char} (h : headIsDigit cs = false) :
    takeDigits cs = none := by
  cases cs with
  | nil => rfl
  | cons c t =>
    simp only [headIsDigit] at h
    simp [takeDigits, List.takeWhile_cons, h]

/-- C4: `parseQuantityToken` yields `0.25, 1.5, 2.5, 0.75` on
`"1/4"`, `"1 1/2"`, `"2.5"`, `"¾"`, and `null` for every string that
does not start with a numeric token after fraction-glyph
normalization. -/
theorem parseQuantity_spec :
    parseQuantityTokenS "1/4" = some (1 / 4) ∧
    parseQuantityTokenS "1 1/2" = some (3 / 2) ∧
    parseQuantityTokenS "2.5" = some (5 / 2) ∧
    parseQuantityTokenS "¾" = some (3 / 4) ∧
    (∀ s : String, headIsDigit (trimJS (normalizeFractionsApp s.data)) = false →
      parseQuantityTokenS s = none) := by
  refine ⟨by with_unfolding_all decide, by with_unfolding_all decide,
    by with_unfolding_all decide, by with_unfolding_all decide, fun s h => ?_⟩
  have hd := takeDigits_eq_none h
  simp [parseQuantityTokenS, parseQuantityToken, parseQuantityTokenFrac,
    parseQuantityTokenDec, tryMixedTok, tryFracTok, tryDecTok, hd]

/-- C4 witness: `"a pinch of salt"` has no leading numeric token and
parses to `null`. -/
theorem parseQuantity_spec_witness :
    headIsDigit (trimJS (normalizeFractionsApp "a pinch of salt".data)) = false ∧
    parseQuantityTokenS "a pinch of salt" = none :=
  ⟨by with_unfolding_all decide,
    parseQuantity_spec.2.2.2.2 "a pinch of salt" (by with_unfolding_all decide)⟩

/-- C8: `scaleServingsLabel` returns `null` exactly when the recipe has
neither a finite numeric servings value nor (non-blank) servings text;
when only the numeric field exists it returns
`Serves {formatQuantity(servings * multiplier)}`; in particular
`scaleServingsLabel({servings: 4}, 2) = "Serves 8"`. -/
theorem scaleServingsLabel_spec :
    (∀ (r : ServingsInfo) (m : ℚ),
      scaleServingsLabel r m = none ↔
        trimJS (r.servingsText.getD "").data = [] ∧ finiteNum r.servings = none) ∧
    (∀ (r : ServingsInfo) (m q : ℚ),
      trimJS (r.servingsText.getD "").data = [] → finiteNum r.servings = some q →
      scaleServingsLabel r m = some ("Serves " ++ formatQuantityQ (q * m))) ∧
    scaleServingsLabel ⟨some (.finite 4), none⟩ 2 = some "Serves 8" := by
  refine ⟨fun r m => ?_, fun r m q hA hq => ?_, by with_unfolding_all decide⟩
  · constructor
    · intro h
      simp only [scaleServingsLabel] at h
      by_cases hA : trimJS (r.servingsText.getD "").data = []
      · by_cases hB : finiteNum r.servings = none
        · exact ⟨hA, hB⟩
        · have hc : ¬(trimJS (r.servingsText.getD "").data = [] ∧
              finiteNum r.servings = none) := fun hand => hB hand.2
          rw [if_neg hc, if_pos hA] at h
          exact Option.noConfusion h
      · have hc : ¬(trimJS (r.servingsText.getD "").data = [] ∧
            finiteNum r.servings = none) := fun hand => hA hand.1
        rw [if_neg hc, if_neg hA] at h
        split at h
        · exact Option.noConfusion h
        · split at h
          · exact Option.noConfusion h
          · exact Option.noConfusion h
    · rintro ⟨hA, hB⟩
      simp only [scaleServingsLabel]
      rw [if_pos ⟨hA, hB⟩]
  · simp only [scaleServingsLabel]
    have hc : ¬(trimJS (r.servingsText.getD "").data = [] ∧
        finiteNum r.servings = none) := by
      rintro ⟨-, hb⟩
      rw [hq] at hb
      exact Option.noConfusion hb
    rw [if_neg hc, if_pos hA, hq]
    rfl

/-- C8 witness: the numeric-only formula applied at servings 4,
multiplier 2, giving `Serves 8`. -/
theorem scaleServingsLabel_spec_witness :
    trimJS ((none : Option String).getD "").data = [] ∧
    finiteNum (some (JSNum.finite 4)) = some 4 ∧
    scaleServingsLabel ⟨some (.finite 4), none⟩ 2 =
      some ("Serves " ++ formatQuantityQ (4 * 2)) :=
  ⟨rfl, rfl, scaleServingsLabel_spec.2.1 ⟨some (.finite 4), none⟩ 2 4 rfl rfl⟩

theorem jsAbs_eq_abs (q : ℚ) : jsAbs q = |q| := by
  unfold jsAbs
  split_ifs with h
  · exact (abs_of_neg h).symm
  · exact (abs_of_nonneg (le_of_not_lt h)).symm

theorem jsFloor_eq (q : ℚ) : jsFloor q = ⌊q⌋ := by
  apply le_antisymm
  · exact Int.le_floor.2 (Rat.le_floor.1 le_rfl)
  · exact Rat.le_floor.2 (Int.floor_le q)

theorem jsRound_eq_of_close {q : ℚ} {n : ℤ} (h : |q - (n : ℚ)| < 1 / 2) :
    jsRound q = n := by
  unfold jsRound
  rw [jsFloor_eq, Int.floor_eq_iff]
  rw [abs_lt] at h
  obtain ⟨h1, h2⟩ := h
  constructor
  · linarith
  · push_cast
    linarith

theorem jsRound_intCast (n : ℤ) : jsRound (n : ℚ) = n :=
  jsRound_eq_of_close (by norm_num)

theorem jsRound_nonneg {q : ℚ} (h : 0 ≤ q) : 0 ≤ jsRound q := by
  unfold jsRound
  rw [jsFloor_eq]
  exact Int.le_floor.2 (by push_cast; linarith)

theorem formatQuantity_int_of_close {q : ℚ} {n : ℤ}
    (h : jsAbs (q - (n : ℚ)) < 1 / 1000000000) : formatQuantityQ q = toString n := by
  have hr : jsRound q = n := by
    apply jsRound_eq_of_close
    rw [jsAbs_eq_abs] at h
    exact h.trans_le (by norm_num)
  simp only [formatQuantityQ]
  rw [hr, if_pos h]

theorem formatQuantity_eighth {q : ℚ} (hq : 0 ≤ q)
    (h1 : ¬ jsAbs (q - (jsRound q : ℚ)) < 1 / 1000000000)
    (h2 : jsAbs (q - (jsRound (q * 8) : ℚ) / 8) < 1 / 50) :
    formatQuantityQ q = eighthRender (jsRound (q * 8)) := by
  set k := jsRound (q * 8) with hk
  have hk0 : 0 ≤ k := by
    rw [hk]
    exact jsRound_nonneg (by positivity)
  set w := Int.fdiv k 8 with hwdef
  set r := Int.fmod k 8 with hrdef
  have hwe : w = k / 8 := by rw [hwdef, Int.fdiv_eq_ediv _ (by norm_num)]
  have hre : r = k % 8 := by rw [hrdef, Int.fmod_eq_emod _ (by norm_num)]
  have hsum : 8 * w + r = k := by rw [hwe, hre]; exact Int.ediv_add_emod k 8
  have hr0 : 0 ≤ r := by rw [hre]; exact Int.emod_nonneg k (by norm_num)
  have hr8 : r < 8 := by rw [hre]; exact Int.emod_lt_of_pos k (by norm_num)
  have hw0 : 0 ≤ w := by rw [hwe]; exact Int.ediv_nonneg hk0 (by norm_num)
  have hA : jsFloor ((k : ℚ) / 8 + 1 / 1000000000) = w := by
    rw [jsFloor_eq, Int.floor_eq_iff]
    have hcast : (k : ℚ) = 8 * (w : ℚ) + (r : ℚ) := by exact_mod_cast hsum.symm
    have hrc0 : (0 : ℚ) ≤ (r : ℚ) := by exact_mod_cast hr0
    have hrc7 : (r : ℚ) ≤ 7 := by exact_mod_cast Int.lt_add_one_iff.mp hr8
    constructor
    · rw [hcast]
      linarith
    · rw [hcast]
      push_cast
      linarith
  have hB : jsRound (((k : ℚ) / 8 - (w : ℚ)) * 8) = r := by
    have : ((k : ℚ) / 8 - (w : ℚ)) * 8 = (r : ℚ) := by
      have hcast : (k : ℚ) = 8 * (w : ℚ) + (r : ℚ) := by exact_mod_cast hsum.symm
      rw [hcast]
      ring
    rw [this, jsRound_intCast]
  simp only [formatQuantityQ, eighthRender]
  rw [if_neg h1, if_pos h2, hA, hB, ← hwdef, ← hrdef]
  by_cases hr : r = 0
  · rw [if_pos hr, if_pos hr]
  · rw [if_neg hr, if_neg hr]
    have hg : jsGcd r 8 = (Int.gcd r 8 : ℤ) := by
      unfold jsGcd
      rw [if_neg]
      simp only [ne_eq, Nat.cast_eq_zero, Int.gcd_eq_zero_iff]
      rintro ⟨-, h8⟩
      exact absurd h8 (by norm_num)
    have hgpos : (0 : ℤ) < (Int.gcd r 8 : ℤ) := by
      have : Int.gcd r 8 ≠ 0 := by
        simp only [ne_eq, Int.gcd_eq_zero_iff]
        rintro ⟨-, h8⟩
        exact absurd h8 (by norm_num)
      positivity
    have hnum : r / jsGcd r 8 = Int.fdiv r (Int.gcd r 8 : ℤ) := by
      rw [hg, Int.fdiv_eq_ediv _ (le_of_lt hgpos)]
    have hden : (8 : ℤ) / jsGcd r 8 = Int.fdiv 8 (Int.gcd r 8 : ℤ) := by
      rw [hg, Int.fdiv_eq_ediv _ (le_of_lt hgpos)]
    rw [hnum, hden]
    by_cases hw : w = 0
    · rw [if_neg (by omega : ¬ w > 0), if_pos hw]
    · rw [if_pos (by omega : w > 0), if_neg hw]

/-- C5 (amended to nonnegative values): for every finite `q ≥ 0`,
`formatQuantity` renders the integer when `q` is within `1e-9` of one;
otherwise, when `q` is within `0.02` of the nearest eighth `k/8`, it
renders `whole num/den` with the fraction reduced by gcd (`num/den`
alone when the whole part is zero, the bare integer when the fractional
part vanishes); otherwise a decimal rounded to two places with trailing
zeros trimmed.  The integer case holds for all finite values; the
fraction case requires `q ≥ 0` (see the counterexample for negative
values).  In particular `formatQuantity(1.5) = "1 1/2"`,
`formatQuantity(3) = "3"` and `formatQuantity(1/3) = "0.33"`. -/
theorem formatQuantity_spec :
    (∀ q : ℚ, (∃ n : ℤ, jsAbs (q - (n : ℚ)) < 1 / 1000000000) ↔
      jsAbs (q - (jsRound q : ℚ)) < 1 / 1000000000) ∧
    (∀ (q : ℚ) (n : ℤ), jsAbs (q - (n : ℚ)) < 1 / 1000000000 →
      formatQuantityQ q = toString n) ∧
    (∀ q : ℚ, 0 ≤ q → ¬ jsAbs (q - (jsRound q : ℚ)) < 1 / 1000000000 →
      (jsAbs (q - (jsRound (q * 8) : ℚ) / 8) < 1 / 50 →
        formatQuantityQ q = eighthRender (jsRound (q * 8))) ∧
      (¬ jsAbs (q - (jsRound (q * 8) : ℚ) / 8) < 1 / 50 →
        formatQuantityQ q = renderDec (jsRound (q * 100)))) ∧
    formatQuantityQ (3 / 2) = "1 1/2" ∧
    formatQuantityQ 3 = "3" ∧
    formatQuantityQ (1 / 3) = "0.33" := by
  refine ⟨fun q => ⟨?_, fun h => ⟨jsRound q, h⟩⟩,
    fun q n h => formatQuantity_int_of_close h,
    fun q hq h1 => ⟨formatQuantity_eighth hq h1, fun h2 => ?_⟩,
    by with_unfolding_all decide, by with_unfolding_all decide,
    by with_unfolding_all decide⟩
  · rintro ⟨n, hn⟩
    have hr : jsRound q = n := by
      apply jsRound_eq_of_close
      rw [jsAbs_eq_abs] at hn
      exact hn.trans_le (by norm_num)
    rwa [hr]
  · simp only [formatQuantityQ]
    rw [if_neg h1, if_neg h2]

/-- C5 witness: `0.26` is not within `1e-9` of an integer, its nearest
eighth is `1/4` within `0.02`, and `formatQuantity` renders the reduced
eighth. -/
theorem formatQuantity_spec_witness :
    (0 : ℚ) ≤ 13 / 50 ∧
    ¬ jsAbs ((13 / 50 : ℚ) - (jsRound (13 / 50 : ℚ) : ℚ)) < 1 / 1000000000 ∧
    jsAbs ((13 / 50 : ℚ) - (jsRound ((13 / 50 : ℚ) * 8) : ℚ) / 8) < 1 / 50 ∧
    formatQuantityQ (13 / 50) = eighthRender (jsRound ((13 / 50 : ℚ) * 8)) :=
  ⟨by norm_num, by with_unfolding_all decide, by with_unfolding_all decide,
    ((formatQuantity_spec.2.2.1 (13 / 50) (by norm_num)
      (by with_unfolding_all decide)).1 (by with_unfolding_all decide))⟩

theorem headNotWs_collapseAux_true (l : List Char) :
    headNotWs (collapseWsAux true l) = true := by
  induction l with
  | nil => rfl
  | cons c t ih =>
    by_cases h : isSpaceJS c = true
    · simpa [collapseWsAux, h] using ih
    · simp [collapseWsAux, h, headNotWs]

theorem spacedOk_cons {c : Char} {X : List Char} :
    spacedOk (c :: X) = ((!isSpaceJS c || c == ' ') && spacedOk X) := by
  simp [spacedOk]

theorem spacedOk_collapseAux (l : List Char) (b : Bool) :
    spacedOk (collapseWsAux b l) = true := by
  induction l generalizing b with
  | nil => rfl
  | cons c t ih =>
    by_cases h : isSpaceJS c = true
    · cases b
      · simp [collapseWsAux, h, spacedOk_cons, ih]
      · simp [collapseWsAux, h, ih]
    · simp [collapseWsAux, h, spacedOk_cons, ih]

theorem noAdjWs_cons {c : Char} {X : List Char} :
    noAdjWs (c :: X) = true ↔
      (isSpaceJS c = true → headNotWs X = true) ∧ noAdjWs X = true := by
  cases X with
  | nil => simp [noAdjWs, headNotWs]
  | cons d t =>
    simp only [noAdjWs, headNotWs, Bool.and_eq_true, Bool.not_eq_true',
      Bool.and_eq_false_iff]
    constructor
    · rintro ⟨h1, h2⟩
      refine ⟨fun hc => ?_, h2⟩
      rcases h1 with h1 | h1
      · exact absurd hc (by simp [h1])
      · exact h1
    · rintro ⟨h1, h2⟩
      refine ⟨?_, h2⟩
      by_cases hc : isSpaceJS c = true
      · exact Or.inr (h1 hc)
      · exact Or.inl (by simpa using hc)

theorem noAdjWs_collapseAux (l : List Char) (b : Bool) :
    noAdjWs (collapseWsAux b l) = true := by
  induction l generalizing b with
  | nil => rfl
  | cons c t ih =>
    by_cases h : isSpaceJS c = true
    · cases b
      · simp only [collapseWsAux, h, if_true]
        exact noAdjWs_cons.2 ⟨fun _ => headNotWs_collapseAux_true t, ih true⟩
      · simpa [collapseWsAux, h] using ih true
    · simp only [collapseWsAux, h, if_false, Bool.false_eq_true]
      exact noAdjWs_cons.2 ⟨fun hc => absurd hc (by simp [h]), ih false⟩

theorem noAdjWs_tail {c : Char} {X : List Char} (h : noAdjWs (c :: X) = true) :
    noAdjWs X = true := (noAdjWs_cons.1 h).2

theorem noAdjWs_dropWhile (p : Char → Bool) (l : List Char)
    (h : noAdjWs l = true) : noAdjWs (l.dropWhile p) = true := by
  induction l with
  | nil => exact h
  | cons c t ih =>
    rw [List.dropWhile_cons]
    split
    · exact ih (noAdjWs_tail h)
    · exact h

theorem spacedOk_dropWhile (p : Char → Bool) (l : List Char)
    (h : spacedOk l = true) : spacedOk (l.dropWhile p) = true := by
  rw [spacedOk, List.all_eq_true] at h ⊢
  exact fun c hc => h c ((List.dropWhile_sublist p).subset hc)

theorem spacedOk_reverse (l : List Char) : spacedOk l.reverse = spacedOk l := by
  simp [spacedOk, List.all_reverse]

theorem noAdjWs_iff_chain {l : List Char} :
    noAdjWs l = true ↔
      List.Chain' (fun a b => ¬(isSpaceJS a = true ∧ isSpaceJS b = true)) l := by
  induction l with
  | nil => simp [noAdjWs]
  | cons c t ih =>
    cases t with
    | nil => simp [noAdjWs]
    | cons d t2 =>
      rw [List.chain'_cons, ← ih]
      simp only [noAdjWs, Bool.and_eq_true, Bool.not_eq_true',
        Bool.and_eq_false_iff]
      constructor
      · rintro ⟨h1, h2⟩
        refine ⟨?_, h2⟩
        rintro ⟨hc, hd⟩
        rcases h1 with h1 | h1 <;> simp_all
      · rintro ⟨h1, h2⟩
        refine ⟨?_, h2⟩
        by_cases hc : isSpaceJS c = true
        · by_cases hd : isSpaceJS d = true
          · exact absurd ⟨hc, hd⟩ h1
          · exact Or.inr (by simpa using hd)
        · exact Or.inl (by simpa using hc)

theorem noAdjWs_reverse (l : List Char) : noAdjWs l.reverse = noAdjWs l := by
  rcases h : noAdjWs l with _ | _
  · by_contra hrev
    rw [Bool.not_eq_false] at hrev
    rw [noAdjWs_iff_chain, List.chain'_reverse] at hrev
    rw [← Bool.not_eq_true, noAdjWs_iff_chain] at h
    exact h (hrev.imp fun a b hab => fun ⟨ha, hb⟩ => hab ⟨hb, ha⟩)
  · rw [noAdjWs_iff_chain, List.chain'_reverse]
    rw [noAdjWs_iff_chain] at h
    exact h.imp fun a b hab => fun ⟨ha, hb⟩ => hab ⟨hb, ha⟩

theorem headNotWs_dropWhileWs (l : List Char) :
    headNotWs (l.dropWhile isSpaceJS) = true := by
  induction l with
  | nil => rfl
  | cons c t ih =>
    rw [List.dropWhile_cons]
    split
    · exact ih
    · simpa [headNotWs] using ‹¬isSpaceJS c = true›

theorem headNotWs_of_prefixOf {l1 l2 : List Char} (h : l1 <+: l2) (hne : l1 ≠ [])
    (h2 : headNotWs l2 = true) : headNotWs l1 = true := by
  obtain ⟨u, rfl⟩ := h
  cases l1 with
  | nil => exact absurd rfl hne
  | cons c t => exact h2

theorem trimJS_reverse_eq (l : List Char) :
    trimJS l = ((l.dropWhile isSpaceJS).reverse.dropWhile isSpaceJS).reverse := rfl

theorem wsNormalized_trim_collapse (l : List Char) :
    wsNormalized (trimJS (collapseWs l)) = true := by
  set C := collapseWs l with hC
  have hs : spacedOk C = true := spacedOk_collapseAux l false
  have hn : noAdjWs C = true := noAdjWs_collapseAux l false
  set L1 := C.dropWhile isSpaceJS with hL1
  set D := L1.reverse.dropWhile isSpaceJS with hD
  have htrim : trimJS C = D.reverse := rfl
  have hsL1 : spacedOk L1 = true := spacedOk_dropWhile _ _ hs
  have hsD : spacedOk D = true :=
    spacedOk_dropWhile _ _ (by rw [spacedOk_reverse]; exact hsL1)
  have hnL1 : noAdjWs L1 = true := noAdjWs_dropWhile _ _ hn
  have hnD : noAdjWs D = true :=
    noAdjWs_dropWhile _ _ (by rw [noAdjWs_reverse]; exact hnL1)
  have hL1head : headNotWs L1 = true := headNotWs_dropWhileWs C
  have hDlast : headNotWs D = true := headNotWs_dropWhileWs L1.reverse
  have hpre : D.reverse <+: L1 := by
    apply List.reverse_suffix.1
    rw [List.reverse_reverse]
    exact List.dropWhile_suffix _
  have hDhead : headNotWs D.reverse = true := by
    by_cases hemp : D.reverse = []
    · rw [hemp]
      rfl
    · exact headNotWs_of_prefixOf hpre hemp hL1head
  rw [htrim, wsNormalized]
  rw [spacedOk_reverse, List.reverse_reverse]
  simp [hsD, hnD, hDlast, hDhead, noAdjWs_reverse]

theorem digit_bounds {c : Char} (h : isDigitJS c = true) : '0' ≤ c ∧ c ≤ '9' := by
  simpa [isDigitJS, Bool.and_eq_true, decide_eq_true_eq] using h

theorem digit_not_ws {c : Char} (h : isDigitJS c = true) : isSpaceJS c = false := by
  obtain ⟨h1, h2⟩ := digit_bounds h
  by_contra hws
  rw [Bool.not_eq_false] at hws
  simp only [isSpaceJS, Bool.or_eq_true, beq_iff_eq, Bool.and_eq_true,
    decide_eq_true_eq] at hws
  casesm* _ ∨ _
  all_goals first
    | (rename_i h3
       obtain ⟨h3lo, -⟩ := h3
       exact absurd (le_trans h3lo h2) (by decide))
    | (rename_i h3
       subst h3
       first
        | exact absurd h1 (by decide)
        | exact absurd h2 (by decide))

theorem digit_not_glyph {c : Char} (h : isDigitJS c = true) : isGlyph c = false := by
  obtain ⟨-, h2⟩ := digit_bounds h
  by_contra hg
  rw [Bool.not_eq_false] at hg
  simp only [isGlyph, Bool.or_eq_true, beq_iff_eq] at hg
  casesm* _ ∨ _
  all_goals rename_i h3
  all_goals subst h3
  all_goals exact absurd h2 (by decide)

theorem headIsDigit_takeWhile {cs : List Char}
    (h : cs.takeWhile isDigitJS ≠ []) :
    headIsDigit (cs.takeWhile isDigitJS) = true := by
  cases cs with
  | nil => exact absurd rfl h
  | cons c t =>
    rw [List.takeWhile_cons] at h ⊢
    split at h
    · rw [if_pos ‹_›]
      simpa [headIsDigit] using ‹isDigitJS c = true›
    · exact absurd rfl h

theorem headIsDigit_append_left {a b : List Char}
    (h : headIsDigit a = true) : headIsDigit (a ++ b) = true := by
  cases a with
  | nil => exact Bool.noConfusion h
  | cons c t => exact h

theorem takeDigits_eq_some {cs d1 r1 : List Char}
    (h : takeDigits cs = some (d1, r1)) :
    d1 = cs.takeWhile isDigitJS ∧ d1 ≠ [] := by
  unfold takeDigits at h
  split at h
  · exact Option.noConfusion h
  · simp only [Option.some.injEq, Prod.mk.injEq] at h
    exact ⟨h.1.symm, h.1.symm ▸ ‹_›⟩

theorem matchQtyDec_head {d1 r1 tok rest : List Char}
    (hd : headIsDigit d1 = true)
    (h : matchQtyDec d1 r1 = some (tok, rest)) : headIsDigit tok = true := by
  unfold matchQtyDec at h
  repeat' split at h
  all_goals simp only [Option.some.injEq, Prod.mk.injEq] at h
  all_goals obtain ⟨htok, -⟩ := h
  all_goals rw [← htok]
  all_goals first
    | exact headIsDigit_append_left hd
    | exact hd

theorem matchQtyFrac_head {d1 r1 tok rest : List Char}
    (hd : headIsDigit d1 = true)
    (h : matchQtyFrac d1 r1 = some (tok, rest)) : headIsDigit tok = true := by
  unfold matchQtyFrac at h
  repeat' split at h
  all_goals first
    | exact matchQtyDec_head hd h
    | (simp only [Option.some.injEq, Prod.mk.injEq] at h
       obtain ⟨htok, -⟩ := h
       rw [← htok]
       exact headIsDigit_append_left hd)

theorem matchQtyLine_head {cs tok rest : List Char}
    (h : matchQtyLine cs = some (tok, rest)) : headIsDigit tok = true := by
  unfold matchQtyLine at h
  cases htd : takeDigits cs with
  | none => rw [htd] at h; exact Option.noConfusion h
  | some p =>
    obtain ⟨d1, r1⟩ := p
    obtain ⟨hd1, hne⟩ := takeDigits_eq_some htd
    have hd : headIsDigit d1 = true := by
      rw [hd1]
      exact headIsDigit_takeWhile (hd1 ▸ hne)
    simp only [htd] at h
    repeat' split at h
    all_goals first
      | exact matchQtyFrac_head hd h
      | (simp only [Option.some.injEq, Prod.mk.injEq] at h
         obtain ⟨htok, -⟩ := h
         rw [← htok]
         exact headIsDigit_append_left (headIsDigit_append_left
           (headIsDigit_append_left hd)))

theorem matchRange_b_head {cs m3 b r : List Char}
    (h : matchRange cs = some (m3, b, r)) : headIsDigit b = true := by
  simp only [matchRange] at h
  split at h
  · exact Option.noConfusion h
  · split at h
    · exact Option.noConfusion h
    · rename_i b2 r4 hq
      simp only [Option.some.injEq, Prod.mk.injEq] at h
      obtain ⟨-, hb, -⟩ := h
      rw [← hb]
      exact matchQtyLine_head hq

theorem leadingMatch_heads {cs : List Char} {pre a : List Char}
    {rng : Option (List Char × List Char)} {suf : List Char}
    (h : leadingMatch cs = some (pre, a, rng, suf)) :
    headIsDigit a = true ∧
      ∀ m3 b, rng = some (m3, b) → headIsDigit b = true := by
  simp only [leadingMatch] at h
  split at h
  · exact Option.noConfusion h
  · rename_i a2 r2 hq
    split at h
    · rename_i m3b hr
      split at h
      · exact Option.noConfusion h
      · simp only [Option.some.injEq, Prod.mk.injEq] at h
        obtain ⟨-, ha, hrng, -⟩ := h
        constructor
        · rw [← ha]
          exact matchQtyLine_head hq
        · intro m3 b hmb
          rw [← hrng] at hmb
          simp only [Option.some.injEq, Prod.mk.injEq] at hmb
          obtain ⟨hm3, hb⟩ := hmb
          rw [← hb]
          exact matchRange_b_head hr
    · split at h
      · exact Option.noConfusion h
      · simp only [Option.some.injEq, Prod.mk.injEq] at h
        obtain ⟨-, ha, hrng, -⟩ := h
        constructor
        · rw [← ha]
          exact matchQtyLine_head hq
        · intro m3 b hmb
          rw [← hrng] at hmb
          exact Option.noConfusion hmb

theorem expandGlyphs_cons_digit {c : Char} {t : List Char}
    (h : isDigitJS c = true) : expandGlyphs (c :: t) = c :: expandGlyphs t := by
  rw [expandGlyphs, digit_not_glyph h]
  simp

theorem trimJS_cons_head {c : Char} {t : List Char} (hc : isSpaceJS c = false) :
    ∃ t2, trimJS (c :: t) = c :: t2 := by
  unfold trimJS
  rw [List.dropWhile_cons, if_neg (by simp [hc])]
  set D := (c :: t).reverse.dropWhile isSpaceJS with hD
  have hne : D ≠ [] := by
    rw [hD, ne_eq, List.dropWhile_eq_nil_iff]
    intro hall
    have hcmem : c ∈ (c :: t).reverse := by simp
    have := hall c hcmem
    rw [hc] at this
    exact Bool.noConfusion this
  have hpre : D.reverse <+: (c :: t) := by
    apply List.reverse_suffix.1
    rw [List.reverse_reverse]
    exact List.dropWhile_suffix _
  obtain ⟨u, hu⟩ := hpre
  cases hrev : D.reverse with
  | nil => exact absurd (by simpa using congrArg List.reverse hrev) hne
  | cons d t2 =>
    rw [hrev] at hu
    have hd : d = c := by
      have := congrArg List.head? hu
      simpa using this
    exact ⟨t2, by rw [hd]⟩

theorem headIsDigit_normTrim {cs : List Char} (h : headIsDigit cs = true) :
    headIsDigit (trimJS (normalizeFractionsApp cs)) = true := by
  cases cs with
  | nil => exact Bool.noConfusion h
  | cons c t =>
    rw [headIsDigit] at h
    rw [normalizeFractionsApp, expandGlyphs_cons_digit h, collapseWs, collapseWsAux,
      if_neg (by simp [digit_not_ws h])]
    obtain ⟨t2, ht2⟩ := trimJS_cons_head (digit_not_ws h)
    rw [ht2]
    simpa [headIsDigit] using h

theorem takeDigits_isSome_of_head {cs : List Char} (h : headIsDigit cs = true) :
    takeDigits cs = some (cs.takeWhile isDigitJS, cs.dropWhile isDigitJS) := by
  cases cs with
  | nil => exact Bool.noConfusion h
  | cons c t =>
    rw [headIsDigit] at h
    rw [takeDigits, if_neg]
    rw [List.takeWhile_cons, if_pos h]
    simp

/-- C10 (amended): whenever `scaleLeadingQuantity` actually rewrites a
line (finite multiplier other than 1, non-empty line, a leading
quantity matched and parsed) and, for a range, the second quantity also
parses (in particular its numeral stays below the double-overflow
bound), the returned string has every whitespace run collapsed to a
single plain space and no leading or trailing whitespace.  When the
second quantity of a matched range fails its `Number.isFinite` guard,
the code instead returns prefix ++ scaledFirst ++ suffix without the
final collapse-and-trim, so irregular leading or trailing spacing
survives — see the counterexample. -/
theorem scaleLeadingQuantity_output_normalized :
    (∀ (line : String) (m : ℚ) (pre a suf : List Char) (qa : ℚ),
      line ≠ "" → m ≠ 1 →
      leadingMatch (normalizeFractionsApp line.data) = some (pre, a, none, suf) →
      parseQuantityToken a = some qa →
      wsNormalized (scaleLeadingQuantity line (.finite m)).data = true) ∧
    (∀ (line : String) (m : ℚ) (pre a m3 b suf : List Char) (qa qb : ℚ),
      line ≠ "" → m ≠ 1 →
      leadingMatch (normalizeFractionsApp line.data) =
        some (pre, a, some (m3, b), suf) →
      parseQuantityToken a = some qa → parseQuantityToken b = some qb →
      wsNormalized (scaleLeadingQuantity line (.finite m)).data = true) := by
  constructor
  · intro line m pre a suf qa hline hm hmatch hqa
    have hguard : ¬(line = "" ∨ m = 1) := by tauto
    rw [scaleLeadingQuantity, if_neg hguard]
    simp only [scaleCore]
    rw [hmatch]
    simp only [hqa]
    exact wsNormalized_trim_collapse _
  · intro line m pre a m3 b suf qa qb hline hm hmatch hqa hqb
    have hguard : ¬(line = "" ∨ m = 1) := by tauto
    rw [scaleLeadingQuantity, if_neg hguard]
    simp only [scaleCore]
    rw [hmatch]
    simp only [hqa, hqb]
    exact wsNormalized_trim_collapse _

/-- C10 witness: a line whose suffix spacing is irregular is rewritten
with fully normalized spacing. -/
theorem scaleLeadingQuantity_output_normalized_witness :
    ("2   cups  flour" : String) ≠ "" ∧ (2 : ℚ) ≠ 1 ∧
    leadingMatch (normalizeFractionsApp ("2   cups  flour" : String).data) =
      some ([], ['2'], none, " cups flour".data) ∧
    parseQuantityToken ['2'] = some 2 ∧
    wsNormalized (scaleLeadingQuantity "2   cups  flour" (.finite 2)).data = true :=
  ⟨by decide, by norm_num,
    by with_unfolding_all decide,
    by with_unfolding_all decide,
    scaleLeadingQuantity_output_normalized.1 "2   cups  flour" 2 [] ['2']
      " cups flour".data 2 (by decide) (by norm_num)
      (by with_unfolding_all decide) (by with_unfolding_all decide)⟩

/-- C10 counterexample: on `hugeNineLine` the guard passes, a leading
quantity and a range match, and the line is rewritten, yet the output
` 2 eggs` keeps the leading space of the original line: the 309-digit
second quantity converts to `Infinity`, fails the `Number.isFinite`
guard, and the code takes the early return that skips the final
collapse-and-trim. -/
theorem scaleLeadingQuantity_normalized_counterexample :
    hugeNineLine ≠ "" ∧ ((2 : ℚ) ≠ 1) ∧
    (leadingMatch (normalizeFractionsApp hugeNineLine.data)).isSome = true ∧
    scaleLeadingQuantity hugeNineLine (.finite 2) = " 2 eggs" ∧
    scaleLeadingQuantity hugeNineLine (.finite 2) ≠ hugeNineLine ∧
    wsNormalized (scaleLeadingQuantity hugeNineLine (.finite 2)).data = false :=
  ⟨by with_unfolding_all decide, by norm_num,
    by with_unfolding_all decide,
    by with_unfolding_all decide,
    by with_unfolding_all decide,
    by with_unfolding_all decide⟩

/-- C1 (amended): `scaleLeadingQuantity` matches an optional leading
quantity, optionally followed by a range separator and a second
quantity; both quantities of a range are scaled independently and
reassembled with the *matched* separator trimmed to single surrounding
spaces (`-` stays `-`; an en-dash or the word `to` is preserved, not
normalized to `-`); and when no leading quantity matches, the line is
returned verbatim. -/
theorem scaleLeadingQuantity_spec :
    (∀ (line : String) (m : ℚ),
      leadingMatch (normalizeFractionsApp line.data) = none →
      scaleLeadingQuantity line (.finite m) = line) ∧
    (∀ (line : String) (m : ℚ) (pre a m3 b suf : List Char) (qa qb : ℚ),
      line ≠ "" → m ≠ 1 →
      leadingMatch (normalizeFractionsApp line.data) =
        some (pre, a, some (m3, b), suf) →
      parseQuantityToken a = some qa → parseQuantityToken b = some qb →
      scaleLeadingQuantity line (.finite m) =
        String.mk (trimJS (collapseWs (pre ++ (formatQuantityQ (qa * m)).data ++
          ' ' :: rangeSep m3 b ++ ' ' :: (formatQuantityQ (qb * m)).data ++
          collapseWs suf)))) ∧
    scaleLeadingQuantity "2 cups flour" (.finite 2) = "4 cups flour" ∧
    scaleLeadingQuantity "1-2 eggs" (.finite 2) = "2 - 4 eggs" ∧
    scaleLeadingQuantity "a pinch of salt" (.finite 3) = "a pinch of salt" := by
  refine ⟨fun line m h => ?_, fun line m pre a m3 b suf qa qb hline hm hmatch hqa hqb => ?_,
    by with_unfolding_all decide, by with_unfolding_all decide,
    by with_unfolding_all decide⟩
  · by_cases hguard : line = "" ∨ m = 1
    · rw [scaleLeadingQuantity, if_pos hguard]
    · rw [scaleLeadingQuantity, if_neg hguard]
      simp only [scaleCore]
      rw [h]
  · have hguard : ¬(line = "" ∨ m = 1) := by tauto
    rw [scaleLeadingQuantity, if_neg hguard]
    simp only [scaleCore]
    rw [hmatch]
    simp only [hqa, hqb]

/-- C1 witness: the range example `1-2 eggs` at multiplier 2 through the
general range equation, and the verbatim case at `a pinch of salt`. -/
theorem scaleLeadingQuantity_spec_witness :
    leadingMatch (normalizeFractionsApp ("1-2 eggs" : String).data) =
      some ([], ['1'], some (['-', '2'], ['2']), " eggs".data) ∧
    parseQuantityToken ['1'] = some 1 ∧ parseQuantityToken ['2'] = some 2 ∧
    scaleLeadingQuantity "1-2 eggs" (.finite 2) =
      String.mk (trimJS (collapseWs (([] : List Char) ++
        (formatQuantityQ (1 * 2)).data ++ ' ' :: rangeSep ['-', '2'] ['2'] ++
        ' ' :: (formatQuantityQ (2 * 2)).data ++ collapseWs " eggs".data))) ∧
    leadingMatch (normalizeFractionsApp ("a pinch of salt" : String).data) = none ∧
    scaleLeadingQuantity "a pinch of salt" (.finite 3) = "a pinch of salt" :=
  ⟨by with_unfolding_all decide, by with_unfolding_all decide,
    by with_unfolding_all decide,
    scaleLeadingQuantity_spec.2.1 "1-2 eggs" 2 [] ['1'] ['-', '2'] ['2']
      " eggs".data 1 2 (by decide) (by norm_num)
      (by with_unfolding_all decide) (by with_unfolding_all decide)
      (by with_unfolding_all decide),
    by with_unfolding_all decide,
    scaleLeadingQuantity_spec.1 "a pinch of salt" 3 (by with_unfolding_all decide)⟩

end MealRotation
